import Mathlib

/-
Verification development for the icloud-worker service
(src/icloud-worker/app/main.py).  The Python source is shallowly embedded:
pure helpers become Lean functions, the process-wide session table becomes an
explicit association list threaded through the handler models, and the
external collaborators (the remote account client, the object-storage client,
uuid/mkdtemp/time) become oracle parameters of the handler functions.
-/

namespace ICloudWorker

/-- Model of Python `str.isalnum()` on a single character, by codepoint.
Python's isalnum is Unicode-aware.  The model is exact on the ASCII range
(letters 65-90 and 97-122, digits 48-57) and on the Latin-1 supplement
(the letters U+00AA, U+00B5, U+00BA, U+00C0-U+00D6, U+00D8-U+00F6,
U+00F8-U+00FF and the numeric characters U+00B2, U+00B3, U+00B9,
U+00BC-U+00BE, all of which Python's isalnum accepts); codepoints above
U+00FF are outside the modelled identifier alphabet. -/
def pyIsAlnumNat (n : Nat) : Bool :=
  (65 ≤ n && n ≤ 90) || (97 ≤ n && n ≤ 122) || (48 ≤ n && n ≤ 57) ||
  n == 0xAA || n == 0xB5 || n == 0xBA || n == 0xB2 || n == 0xB3 || n == 0xB9 ||
  (0xBC ≤ n && n ≤ 0xBE) || (0xC0 ≤ n && n ≤ 0xD6) || (0xD8 ≤ n && n ≤ 0xF6) ||
  (0xF8 ≤ n && n ≤ 0xFF)

/-- Python `ch.isalnum()` lifted to Lean characters via the codepoint. -/
def pyIsAlnum (c : Char) : Bool := pyIsAlnumNat c.toNat

/-- Characters kept by the sanitization in main.py lines 222-224:
`ch.isalnum() or ch in ("-", "_")`; codepoint 45 is the hyphen and 95 the
underscore. -/
def pyKeepNat (n : Nat) : Bool := pyIsAlnumNat n || n == 45 || n == 95

/-- Character-level keep predicate of the sanitization step. -/
def pyKeep (c : Char) : Bool := pyKeepNat c.toNat

/-- Spec-side character set, following the spec's words: the ASCII class
`[A-Za-z0-9_-]` (letters, digits, hyphen 45, underscore 95).  Used only to
compare the code's sanitization against the spec's claimed alphabet. -/
def specAsciiAllowedNat (n : Nat) : Bool :=
  (65 ≤ n && n ≤ 90) || (97 ≤ n && n ≤ 122) || (48 ≤ n && n ≤ 57) ||
  n == 45 || n == 95

/-- Spec-side character set lifted to characters. -/
def specAsciiAllowed (c : Char) : Bool := specAsciiAllowedNat c.toNat

/-- main.py lines 222-224: `"".join(ch for ch in (identifier or "") if
ch.isalnum() or ch in ("-", "_"))` — keep exactly the characters satisfying
the keep predicate, in order, dropping the rest. -/
def sanitizeIdentifier (s : String) : String := String.mk (s.data.filter pyKeep)

/-- main.py lines 222-229: sanitize the (possibly absent) identifier, then
build the destination key: `{prefix}{safe}-{filename}` when the sanitized
identifier is non-empty, else `{prefix}{filename}`. -/
def destinationKey (pfx : String) (identifier : Option String) (filename : String) : String :=
  let safe := sanitizeIdentifier (identifier.getD "")
  if safe ≠ "" then pfx ++ safe ++ "-" ++ filename else pfx ++ filename

/-- Model of a source photo handle (main.py lines 146-160).  The optional
attribute slots mirror the probed attribute names; `freshHex` models the
`uuid4().hex` drawn when neither a filename attribute nor an identifier is
available; `fetchResult` models the outcome of `download_photo_bytes` for this
item (the multi-strategy fetcher is an external collaborator here: either the
raw bytes it produced or the text of the exception it raised). -/
structure Photo where
  id : Option String
  asset_id : Option String
  record_name : Option String
  recordName : Option String
  filename : Option String
  original_filename : Option String
  file_name : Option String
  name : Option String
  freshHex : String
  fetchResult : Except String (List Nat)

/-- Python truthiness probe used by the attribute loops: the first attribute
that is present and a non-empty string. -/
def firstTruthy : List (Option String) → Option String
  | [] => none
  | some s :: rest => if s ≠ "" then some s else firstTruthy rest
  | none :: rest => firstTruthy rest

/-- main.py lines 146-151: probe id, asset_id, record_name, recordName in
order; absence is a valid outcome. -/
def get_photo_identifier (p : Photo) : Option String :=
  firstTruthy [p.id, p.asset_id, p.record_name, p.recordName]

/-- main.py lines 154-160: probe filename, original_filename, file_name, name
in order; otherwise synthesize from the identifier or a fresh hex string. -/
def get_photo_filename (p : Photo) : String :=
  match firstTruthy [p.filename, p.original_filename, p.file_name, p.name] with
  | some v => v
  | none =>
      (match get_photo_identifier p with
       | some i => i
       | none => p.freshHex) ++ ".jpg"

/-- Destination key of one photo (main.py lines 220-229). -/
def photoKey (pfx : String) (p : Photo) : String :=
  destinationKey pfx (get_photo_identifier p) (get_photo_filename p)

/-- Observable per-item events of a sync run, recorded so that the dedup and
error-handling claims can speak about what the engine did: a dedup skip, a
fetch attempt, a successful upload, or a recorded per-item failure. -/
inductive SyncEvent where
  | skip (key : String)
  | fetch (key : String)
  | uploadOk (key : String)
  | failItem (filename : String) (msg : String)
  deriving DecidableEq

/-- Accumulator state of perform_sync (main.py lines 208-243): the in-memory
baseline key set (a Python set, modelled by a key list used only through
membership), the two counters, the error-message list and the event trace. -/
structure SyncState where
  existing : List String
  imported : Nat
  skipped : Nat
  errors : List String
  events : List SyncEvent

/-- One iteration of the loop body of perform_sync (main.py lines 216-241):
resolve filename and key; a key already in the baseline is skipped with no
fetch; otherwise fetch and upload, catching any failure of either into the
error list; a successful upload adds the key to the baseline set.  The upload
oracle `u` returns none on success and the exception text on failure. -/
def syncStep (u : String → List Nat → Option String) (pfx : String)
    (st : SyncState) (p : Photo) : SyncState :=
  let fname := get_photo_filename p
  let key := photoKey pfx p
  if key ∈ st.existing then
    { st with skipped := st.skipped + 1, events := st.events ++ [SyncEvent.skip key] }
  else
    match p.fetchResult with
    | Except.error e =>
        { st with errors := st.errors ++ ["Failed " ++ fname ++ ": " ++ e],
                  events := st.events ++ [SyncEvent.fetch key, SyncEvent.failItem fname e] }
    | Except.ok data =>
        match u key data with
        | some e =>
            { st with errors := st.errors ++ ["Failed " ++ fname ++ ": " ++ e],
                      events := st.events ++ [SyncEvent.fetch key, SyncEvent.failItem fname e] }
        | none =>
            { st with existing := key :: st.existing,
                      imported := st.imported + 1,
                      events := st.events ++ [SyncEvent.fetch key, SyncEvent.uploadOk key] }

/-- main.py line 217: `if limit is not None and index >= limit: break`. -/
def limitReached (limit : Option Int) (index : Nat) : Bool :=
  match limit with
  | none => false
  | some l => decide (l ≤ (index : Int))

/-- The enumerate loop of perform_sync, with its explicit running index. -/
def runSyncAux (u : String → List Nat → Option String) (pfx : String)
    (limit : Option Int) : Nat → List Photo → SyncState → SyncState
  | _, [], st => st
  | index, p :: rest, st =>
      if limitReached limit index then st
      else runSyncAux u pfx limit (index + 1) rest (syncStep u pfx st p)

/-- Initial sync state: the dedup baseline and zeroed counters. -/
def initState (existing0 : List String) : SyncState :=
  ⟨existing0, 0, 0, [], []⟩

/-- main.py lines 205-243, given the already-listed baseline keys, the photo
collection in native order, and the optional limit. -/
def perform_sync (u : String → List Nat → Option String) (pfx : String)
    (existing0 : List String) (photos : List Photo) (limit : Option Int) : SyncState :=
  runSyncAux u pfx limit 0 photos (initState existing0)

/-- The sub-list of the collection the loop actually iterates: everything, or
the first items up to the limit. -/
def consideredItems (photos : List Photo) : Option Int → List Photo
  | none => photos
  | some l => photos.take l.toNat

/-- Total number of per-item outcomes recorded in a state. -/
def outcomeSum (st : SyncState) : Nat := st.imported + st.skipped + st.errors.length

/-- Outcome of the try-block body for one non-skipped item: the fetch error
text if the fetch raises, else the upload error text if the upload raises,
else none (success). -/
def itemFailureMsg (u : String → List Nat → Option String) (pfx : String)
    (p : Photo) : Option String :=
  match p.fetchResult with
  | Except.error e => some e
  | Except.ok data => u (photoKey pfx p) data

/-- Recognizer for a successful-upload event of a given key. -/
def isUploadOf (k : String) (e : SyncEvent) : Bool :=
  match e with
  | SyncEvent.uploadOk k2 => decide (k2 = k)
  | _ => false

/-- Recognizer for a fetch-attempt event of a given key. -/
def isFetchOf (k : String) (e : SyncEvent) : Bool :=
  match e with
  | SyncEvent.fetch k2 => decide (k2 = k)
  | _ => false

/-- Number of successful uploads of a key in a trace. -/
def uploadCount (k : String) (events : List SyncEvent) : Nat :=
  (events.filter (isUploadOf k)).length

/-- Number of fetch attempts of a key in a trace. -/
def fetchCount (k : String) (events : List SyncEvent) : Nat :=
  (events.filter (isFetchOf k)).length

/-- Once a key is successfully uploaded, the remainder of the trace holds no
further upload of it and no further fetch of it: any uploadOk event of k is
followed by zero k-uploads and zero k-fetches. -/
def cleanAfterUpload (k : String) : List SyncEvent → Prop
  | [] => True
  | e :: rest =>
      (e = SyncEvent.uploadOk k → uploadCount k rest = 0 ∧ fetchCount k rest = 0) ∧
      cleanAfterUpload k rest

/-- Run invariant behind the dedup guarantee: baseline keys stay in the
in-memory set and are never fetched or uploaded; every uploaded key is in the
set; no key is uploaded twice; and after a key's successful upload no further
fetch or upload of it occurs. -/
def SyncInv (existing0 : List String) (st : SyncState) : Prop :=
  (∀ k, k ∈ existing0 →
    k ∈ st.existing ∧ uploadCount k st.events = 0 ∧ fetchCount k st.events = 0) ∧
  (∀ k, SyncEvent.uploadOk k ∈ st.events → k ∈ st.existing) ∧
  (∀ k, uploadCount k st.events ≤ 1) ∧
  (∀ k, cleanAfterUpload k st.events)

/-- One list_objects_v2 response (main.py lines 97-106): the Contents entries
(each entry's optional Key, mirroring item.get of Key) and the IsTruncated
flag.  The continuation-token chain is modelled by the sequence of responses
it yields: the lister model walks the pages in order while IsTruncated holds. -/
structure ListPage where
  contents : List (Option String)
  isTruncated : Bool
  deriving DecidableEq

/-- main.py lines 98-101: accumulate each page's keys into the set, keeping a
key only when it is truthy (present and non-empty).  The Python set is
modelled by a duplicate-free accumulation list used only through membership. -/
def addPageKeys (acc : List String) (contents : List (Option String)) : List String :=
  contents.foldl
    (fun a k? =>
      match k? with
      | some k => if k = "" then a else if k ∈ a then a else a ++ [k]
      | none => a)
    acc

/-- The while-loop of list_existing_keys (main.py lines 92-106): consume the
current response, then continue with the next page while IsTruncated. -/
def list_existing_keys : List ListPage → List String → List String
  | [], acc => acc
  | page :: rest, acc =>
      if page.isTruncated then list_existing_keys rest (addPageKeys acc page.contents)
      else addPageKeys acc page.contents

/-- main.py lines 88-108: full listing starting from the empty set. -/
def listExistingKeys (pages : List ListPage) : List String :=
  list_existing_keys pages []

/-- Well-formed pagination: a non-empty response sequence in which every page
but the last reports IsTruncated and the last does not. -/
def wfPages : List ListPage → Bool
  | [] => false
  | [page] => !page.isTruncated
  | page :: rest => page.isTruncated && wfPages rest

/-- One step of the scan for the last path separator: a slash restarts the
component, anything else extends it. -/
def afterLastSlashStep (acc : List Char) (c : Char) : List Char :=
  if c = '/' then [] else acc ++ [c]

/-- Python posixpath.basename (used by os.path.basename on the worker's
POSIX platform): the part of the path after the last slash. -/
def posixBasename (p : String) : String :=
  String.mk (p.data.foldl afterLastSlashStep [])

/-- Final path components that posix open(path, "w") cannot create as a
regular file: the empty component, the dot and the dot-dot entries all
resolve to already-existing directories, so the open call raises instead of
writing a file. -/
def invalidWriteName (name : String) : Bool :=
  decide (name = "") || decide (name = ".") || decide (name = "..")

/-- main.py lines 31-34: the optional credential-cache payload supplied by
the caller. -/
structure SessionPayload where
  file_name : String
  data : String
  deriving DecidableEq

/-- main.py lines 116-125, observed through the filesystem: mkdtemp makes a
fresh private directory and, when a payload is supplied, exactly one write of
basename(file_name) inside that directory is attempted.  The value is the
list of (relative file name, contents) pairs written into the directory;
Except.error carries the OSError raised when the final component is empty or
a dot entry. -/
def create_session_dir (session : Option SessionPayload) :
    Except String (List (String × String)) :=
  match session with
  | none => Except.ok []
  | some s =>
      let fname := posixBasename s.file_name
      if invalidWriteName fname then Except.error ("IsADirectoryError: " ++ fname)
      else Except.ok [(fname, s.data)]

/-- main.py lines 20-25: a parked login awaiting its verification code. -/
structure PendingSession where
  apple_id : String
  app_password : String
  session_dir : String
  created_at : Nat
  deriving DecidableEq

/-- main.py lines 36-40: body of POST /sync. -/
structure SyncRequest where
  apple_id : String
  app_password : String
  session : Option SessionPayload
  limit : Option Int

/-- main.py lines 43-45: body of POST /sync/2fa. -/
structure TwoFactorRequest where
  session_id : String
  code : String

/-- Oracle model of a PyiCloudService handle: the two challenge flags probed
by the handlers, the code validator, and the photo collection. -/
structure ApiHandle where
  requires_2fa : Bool
  requires_2sa : Bool
  validate_2fa_code : String → Bool
  photos : List Photo

/-- The process-wide pending_sessions dict (main.py line 28), as an
association list with unique keys. -/
abbrev SessionTable := List (String × PendingSession)

/-- Python dict lookup pending_sessions.get. -/
def tableGet : SessionTable → String → Option PendingSession
  | [], _ => none
  | (k2, v) :: rest, k => if k2 = k then some v else tableGet rest k

/-- Python dict assignment pending_sessions[k] = v. -/
def tableSet : SessionTable → String → PendingSession → SessionTable
  | [], k, v => [(k, v)]
  | (k2, v2) :: rest, k, v =>
      if k2 = k then (k, v) :: rest else (k2, v2) :: tableSet rest k v

/-- Python dict removal pending_sessions.pop(k, None). -/
def tableRemove : SessionTable → String → SessionTable
  | [], _ => []
  | (k2, v2) :: rest, k =>
      if k2 = k then tableRemove rest k else (k2, v2) :: tableRemove rest k

/-- An HTTPException raised by a handler. -/
structure HttpError where
  status : Nat
  detail : String
  deriving DecidableEq

/-- Successful handler response body: either the needs_2fa handle or the ok
body with the sync outcome and the extracted cache payload. -/
inductive SyncResponse where
  | needs2fa (session_id : String)
  | ok (imported : Nat) (skipped : Nat) (errors : List String)
      (session : Option SessionPayload)
  deriving DecidableEq

/-- Full observable outcome of one handler invocation: the HTTP-level result,
the session table afterwards, the limits of the sync runs performed (in
order), and how many remote logins were constructed. -/
structure HandlerResult where
  response : Except HttpError SyncResponse
  table : SessionTable
  syncLimits : List (Option Int)
  loginCalls : Nat

/-- main.py lines 246-276 (POST /sync, after token verification): build the
session directory, construct the remote login, park a pending session when a
challenge is signalled, otherwise run one sync with the requested limit.
Oracles: `login` for PyiCloudService, `u`/`pfx`/`pages` for the storage used
by perform_sync, `extract` for extract_session_payload, `newDir` for mkdtemp,
`newId` for uuid4().hex, `now` for time.time(). -/
def sync_photos (login : String → String → String → ApiHandle)
    (u : String → List Nat → Option String) (pfx : String) (pages : List ListPage)
    (extract : String → Option SessionPayload) (newDir newId : String) (now : Nat)
    (table : SessionTable) (req : SyncRequest) : HandlerResult :=
  match create_session_dir req.session with
  | Except.error e => ⟨Except.error ⟨500, e⟩, table, [], 0⟩
  | Except.ok _ =>
      let api := login req.apple_id req.app_password newDir
      if api.requires_2fa || api.requires_2sa then
        ⟨Except.ok (SyncResponse.needs2fa newId),
         tableSet table newId ⟨req.apple_id, req.app_password, newDir, now⟩, [], 1⟩
      else
        let st := perform_sync u pfx (listExistingKeys pages) api.photos req.limit
        ⟨Except.ok (SyncResponse.ok st.imported st.skipped st.errors (extract newDir)),
         table, [req.limit], 1⟩

/-- main.py lines 279-308 (POST /sync/2fa, after token verification): look up
the pending session (absence is 404), re-construct the remote login on the
stored cache directory, validate the code only when requires_2fa is still
set (an invalid code is 401 and leaves the table untouched), then run exactly
one unlimited sync, extract the payload and pop the entry. -/
def sync_with_2fa (login : String → String → String → ApiHandle)
    (u : String → List Nat → Option String) (pfx : String) (pages : List ListPage)
    (extract : String → Option SessionPayload)
    (table : SessionTable) (payload : TwoFactorRequest) : HandlerResult :=
  match tableGet table payload.session_id with
  | none => ⟨Except.error ⟨404, "Session not found"⟩, table, [], 0⟩
  | some pending =>
      let api := login pending.apple_id pending.app_password pending.session_dir
      if api.requires_2fa && !api.validate_2fa_code payload.code then
        ⟨Except.error ⟨401, "Invalid 2FA code"⟩, table, [], 1⟩
      else
        let st := perform_sync u pfx (listExistingKeys pages) api.photos none
        ⟨Except.ok (SyncResponse.ok st.imported st.skipped st.errors
            (extract pending.session_dir)),
         tableRemove table payload.session_id, [none], 1⟩

/-- Concrete resumed login whose re-invoked handle still signals a pending
two-step (2sa) challenge but no 2fa challenge, with a validator rejecting
every code. -/
def c1ResumeApi : ApiHandle := ApiHandle.mk false true (fun _ => false) []

/-- The ResumeLogin call of the C1 counterexample: one parked session "s",
resumed with a code its validator rejects. -/
def c1Resume : HandlerResult :=
  sync_with_2fa (fun _ _ _ => c1ResumeApi) (fun _ _ => none) "p/"
    [ListPage.mk [] false] (fun _ => none)
    [("s", PendingSession.mk "a" "pw" "d" 0)] (TwoFactorRequest.mk "s" "000000")

theorem pyKeepNat_eq_specAsciiAllowedNat_of_ascii :
    ∀ n : Nat, n < 128 → pyKeepNat n = specAsciiAllowedNat n := by decide

/-- Claim C2, as stated: sanitization keeps exactly the ASCII characters in
[A-Za-z0-9_-].  Refuted: Python's isalnum is Unicode-aware, so the Latin-1
letter é (U+00E9) survives sanitization although it is outside the ASCII
class. -/
theorem claim_C2_counterexample :
    'é' ∈ (sanitizeIdentifier "é").data ∧ specAsciiAllowed 'é' = false := by
  decide

/-- Claim C2, amended: sanitization is exactly a character filter (characters
are kept or dropped, never replaced), the kept characters are exactly those
Python counts as alphanumeric plus hyphen and underscore, and restricted to
the ASCII range this keep predicate coincides with the spec's class
[A-Za-z0-9_-]. -/
theorem claim_C2_amended (s : String) :
    (sanitizeIdentifier s).data = s.data.filter pyKeep ∧
    (∀ c, c ∈ (sanitizeIdentifier s).data → c ∈ s.data ∧ pyKeep c = true) ∧
    (∀ c : Char, c.toNat < 128 → pyKeep c = specAsciiAllowed c) := by
  refine ⟨rfl, ?_, ?_⟩
  · intro c hc
    have hc' : c ∈ s.data.filter pyKeep := hc
    exact ⟨List.mem_of_mem_filter hc', List.of_mem_filter hc'⟩
  · intro c h
    exact pyKeepNat_eq_specAsciiAllowedNat_of_ascii c.toNat h

/-- Claim C7: the destination key is `{prefix}{sanitized}-{filename}` when the
sanitized identifier is non-empty and `{prefix}{filename}` otherwise, and key
construction is a deterministic function of the (identifier, filename) pair. -/
theorem claim_C7 (pfx : String) (identifier : Option String) (filename : String) :
    (sanitizeIdentifier (identifier.getD "") ≠ "" →
      destinationKey pfx identifier filename =
        pfx ++ sanitizeIdentifier (identifier.getD "") ++ "-" ++ filename) ∧
    (sanitizeIdentifier (identifier.getD "") = "" →
      destinationKey pfx identifier filename = pfx ++ filename) ∧
    (∀ identifier2 filename2, identifier2 = identifier → filename2 = filename →
      destinationKey pfx identifier2 filename2 = destinationKey pfx identifier filename) := by
  refine ⟨?_, ?_, ?_⟩
  · intro h; simp [destinationKey, h]
  · intro h; simp [destinationKey, h]
  · intro identifier2 filename2 h2 h3; rw [h2, h3]

/-- Claim C7 witness: concrete instances of both branches of the key formula,
obtained from the claim theorem itself. -/
theorem claim_C7_witness :
    destinationKey "photos/" (some "a1") "p1.jpg" = "photos/" ++ "a1" ++ "-" ++ "p1.jpg" ∧
    destinationKey "photos/" none "p2.png" = "photos/" ++ "p2.png" := by
  constructor
  · have h := (claim_C7 "photos/" (some "a1") "p1.jpg").1 (by decide)
    have hs : sanitizeIdentifier ((some "a1").getD "") = "a1" := by decide
    rw [hs] at h
    exact h
  · exact (claim_C7 "photos/" none "p2.png").2.1 (by decide)

theorem runSyncAux_none_eq (u : String → List Nat → Option String) (pfx : String) :
    ∀ (l : List Photo) (st : SyncState) (i : Nat),
      runSyncAux u pfx none i l st = List.foldl (syncStep u pfx) st l := by
  intro l
  induction l with
  | nil => intro st i; rfl
  | cons p rest ih =>
      intro st i
      simp only [runSyncAux, limitReached, List.foldl]
      exact ih (syncStep u pfx st p) (i + 1)

theorem runSyncAux_some_eq (u : String → List Nat → Option String) (pfx : String) (L : Int) :
    ∀ (l : List Photo) (st : SyncState) (i : Nat),
      runSyncAux u pfx (some L) i l st =
        List.foldl (syncStep u pfx) st (l.take (L - i).toNat) := by
  intro l
  induction l with
  | nil => intro st i; simp [runSyncAux]
  | cons p rest ih =>
      intro st i
      by_cases h : L ≤ (i : Int)
      · have h0 : (L - i).toNat = 0 := by omega
        simp [runSyncAux, limitReached, h, h0]
      · have h1 : (L - i).toNat = (L - ((i : Nat) + 1 : Nat)).toNat + 1 := by
          push_cast
          omega
        rw [h1]
        simp only [runSyncAux, limitReached, decide_eq_true_eq, if_neg h, List.take_succ_cons,
          List.foldl]
        exact ih (syncStep u pfx st p) (i + 1)

theorem perform_sync_eq_foldl (u : String → List Nat → Option String) (pfx : String)
    (existing0 : List String) (photos : List Photo) (limit : Option Int) :
    perform_sync u pfx existing0 photos limit =
      List.foldl (syncStep u pfx) (initState existing0) (consideredItems photos limit) := by
  cases limit with
  | none => exact runSyncAux_none_eq u pfx photos (initState existing0) 0
  | some L =>
      have h := runSyncAux_some_eq u pfx L photos (initState existing0) 0
      simpa [perform_sync, consideredItems] using h

theorem outcomeSum_syncStep (u : String → List Nat → Option String) (pfx : String)
    (st : SyncState) (p : Photo) :
    outcomeSum (syncStep u pfx st p) = outcomeSum st + 1 := by
  unfold syncStep outcomeSum
  by_cases h : photoKey pfx p ∈ st.existing
  · simp [h]; omega
  · cases hf : p.fetchResult with
    | error e => simp [h, hf]; omega
    | ok data =>
        cases hu : u (photoKey pfx p) data with
        | none => simp [h, hf, hu]; omega
        | some e => simp [h, hf, hu]; omega

theorem exactlyOne_syncStep (u : String → List Nat → Option String) (pfx : String)
    (st : SyncState) (p : Photo) :
    ((syncStep u pfx st p).imported = st.imported + 1 ∧
      (syncStep u pfx st p).skipped = st.skipped ∧
      (syncStep u pfx st p).errors = st.errors) ∨
    ((syncStep u pfx st p).imported = st.imported ∧
      (syncStep u pfx st p).skipped = st.skipped + 1 ∧
      (syncStep u pfx st p).errors = st.errors) ∨
    ((syncStep u pfx st p).imported = st.imported ∧
      (syncStep u pfx st p).skipped = st.skipped ∧
      ∃ m, (syncStep u pfx st p).errors = st.errors ++ [m]) := by
  unfold syncStep
  by_cases h : photoKey pfx p ∈ st.existing
  · right; left; simp [h]
  · cases hf : p.fetchResult with
    | error e => right; right; simp [h, hf]
    | ok data =>
        cases hu : u (photoKey pfx p) data with
        | none => left; simp [h, hf, hu]
        | some e => right; right; simp [h, hf, hu]

theorem outcomeSum_foldl (u : String → List Nat → Option String) (pfx : String) :
    ∀ (l : List Photo) (st : SyncState),
      outcomeSum (List.foldl (syncStep u pfx) st l) = outcomeSum st + l.length := by
  intro l
  induction l with
  | nil => intro st; simp
  | cons p rest ih =>
      intro st
      simp only [List.foldl, List.length_cons]
      rw [ih (syncStep u pfx st p), outcomeSum_syncStep]
      omega

/-- Claim C3: a sync run iterates exactly the first min(n, |L|) items of the
collection in native order (all of L when there is no limit), each considered
item contributes to exactly one of imported, skipped, errors, and the three
outcome counts add up to the number of items considered (hence are bounded by
it). -/
theorem claim_C3 (u : String → List Nat → Option String) (pfx : String)
    (existing0 : List String) (photos : List Photo) (limit : Option Int) :
    perform_sync u pfx existing0 photos limit =
      List.foldl (syncStep u pfx) (initState existing0) (consideredItems photos limit) ∧
    (∀ n : Nat, consideredItems photos (some (n : Int)) = photos.take n ∧
      (consideredItems photos (some (n : Int))).length = min n photos.length) ∧
    consideredItems photos none = photos ∧
    (∀ st p,
      ((syncStep u pfx st p).imported = st.imported + 1 ∧
        (syncStep u pfx st p).skipped = st.skipped ∧
        (syncStep u pfx st p).errors = st.errors) ∨
      ((syncStep u pfx st p).imported = st.imported ∧
        (syncStep u pfx st p).skipped = st.skipped + 1 ∧
        (syncStep u pfx st p).errors = st.errors) ∨
      ((syncStep u pfx st p).imported = st.imported ∧
        (syncStep u pfx st p).skipped = st.skipped ∧
        ∃ m, (syncStep u pfx st p).errors = st.errors ++ [m])) ∧
    outcomeSum (perform_sync u pfx existing0 photos limit) =
      (consideredItems photos limit).length ∧
    (perform_sync u pfx existing0 photos limit).imported +
        (perform_sync u pfx existing0 photos limit).skipped +
        (perform_sync u pfx existing0 photos limit).errors.length ≤
      (consideredItems photos limit).length := by
  have hfold := perform_sync_eq_foldl u pfx existing0 photos limit
  have hsum : outcomeSum (perform_sync u pfx existing0 photos limit) =
      (consideredItems photos limit).length := by
    rw [hfold, outcomeSum_foldl]
    simp [initState, outcomeSum]
  refine ⟨hfold, ?_, rfl, fun st p => exactlyOne_syncStep u pfx st p, hsum, ?_⟩
  · intro n
    constructor
    · simp [consideredItems]
    · simp [consideredItems]
  · have := hsum
    unfold outcomeSum at this
    omega

/-- Claim C5: when a non-duplicate item's fetch or upload raises, the run
appends exactly one message built from the item's resolved filename and the
error text, leaves imported and skipped untouched, and the loop continues
with the remaining items. -/
theorem claim_C5 (u : String → List Nat → Option String) (pfx : String)
    (st : SyncState) (p : Photo) (rest : List Photo) (e : String)
    (hkey : photoKey pfx p ∉ st.existing)
    (hfail : itemFailureMsg u pfx p = some e) :
    syncStep u pfx st p =
      { st with
          errors := st.errors ++ ["Failed " ++ get_photo_filename p ++ ": " ++ e],
          events := st.events ++
            [SyncEvent.fetch (photoKey pfx p),
             SyncEvent.failItem (get_photo_filename p) e] } ∧
    (syncStep u pfx st p).imported = st.imported ∧
    (syncStep u pfx st p).skipped = st.skipped ∧
    (∃ a b, "Failed " ++ get_photo_filename p ++ ": " ++ e =
      a ++ get_photo_filename p ++ b) ∧
    (∃ a b, "Failed " ++ get_photo_filename p ++ ": " ++ e = a ++ e ++ b) ∧
    List.foldl (syncStep u pfx) st (p :: rest) =
      List.foldl (syncStep u pfx) (syncStep u pfx st p) rest := by
  have hstep : syncStep u pfx st p =
      { st with
          errors := st.errors ++ ["Failed " ++ get_photo_filename p ++ ": " ++ e],
          events := st.events ++
            [SyncEvent.fetch (photoKey pfx p),
             SyncEvent.failItem (get_photo_filename p) e] } := by
    unfold syncStep
    unfold itemFailureMsg at hfail
    cases hf : p.fetchResult with
    | error e2 =>
        rw [hf] at hfail
        simp only [Option.some.injEq] at hfail
        subst hfail
        simp [hkey, hf]
    | ok data =>
        rw [hf] at hfail
        have hu : u (photoKey pfx p) data = some e := hfail
        simp [hkey, hf, hu]
  refine ⟨hstep, ?_, ?_, ?_, ?_, rfl⟩
  · rw [hstep]
  · rw [hstep]
  · exact ⟨"Failed ", ": " ++ e, by simp [String.append_assoc]⟩
  · exact ⟨"Failed " ++ get_photo_filename p ++ ": ", "", by simp [String.append_assoc]⟩

/-- Claim C5 witness: a concrete one-item failing run, instantiating the claim
theorem at a photo whose fetch raises. -/
theorem claim_C5_witness :
    (photoKey "photos/" (Photo.mk (some "a1") none none none (some "p1.jpg")
        none none none "deadbeef" (Except.error "boom")) ∉
      (initState ["photos/other"]).existing) ∧
    (syncStep (fun _ _ => none) "photos/"
        (initState ["photos/other"])
        (Photo.mk (some "a1") none none none (some "p1.jpg")
          none none none "deadbeef" (Except.error "boom"))).errors =
      ["Failed p1.jpg: boom"] := by
  constructor
  · decide
  · have h := claim_C5 (fun _ _ => none) "photos/"
      (initState ["photos/other"])
      (Photo.mk (some "a1") none none none (some "p1.jpg")
        none none none "deadbeef" (Except.error "boom"))
      [] "boom" (by decide) (by decide)
    rw [h.1]
    decide

theorem isUploadOf_iff (k : String) (e : SyncEvent) :
    isUploadOf k e = true ↔ e = SyncEvent.uploadOk k := by
  cases e <;> simp [isUploadOf]

theorem uploadCount_append (k : String) (xs ys : List SyncEvent) :
    uploadCount k (xs ++ ys) = uploadCount k xs + uploadCount k ys := by
  simp [uploadCount, List.filter_append]

theorem fetchCount_append (k : String) (xs ys : List SyncEvent) :
    fetchCount k (xs ++ ys) = fetchCount k xs + fetchCount k ys := by
  simp [fetchCount, List.filter_append]

theorem uploadCount_eq_zero_of_not_mem (k : String) (evts : List SyncEvent)
    (h : SyncEvent.uploadOk k ∉ evts) : uploadCount k evts = 0 := by
  induction evts with
  | nil => rfl
  | cons e rest ih =>
      cases hp : isUploadOf k e with
      | true =>
          exact absurd ((isUploadOf_iff k e).mp hp ▸ List.mem_cons_self e rest) h
      | false =>
          have : uploadCount k (e :: rest) = uploadCount k rest := by
            simp [uploadCount, List.filter, hp]
          rw [this]
          exact ih (fun hm => h (List.mem_cons_of_mem e hm))

theorem cleanAfterUpload_append (k : String) (xs ys : List SyncEvent)
    (hx : cleanAfterUpload k xs) (hy : cleanAfterUpload k ys)
    (hmem : SyncEvent.uploadOk k ∈ xs → uploadCount k ys = 0 ∧ fetchCount k ys = 0) :
    cleanAfterUpload k (xs ++ ys) := by
  induction xs with
  | nil => simpa using hy
  | cons e xs ih =>
      obtain ⟨h1, h2⟩ := hx
      refine ⟨?_, ih h2 (fun hm => hmem (List.mem_cons_of_mem e hm))⟩
      intro he
      have hz := h1 he
      have hys := hmem (by rw [he]; exact List.mem_cons_self _ _)
      show uploadCount k (xs ++ ys) = 0 ∧ fetchCount k (xs ++ ys) = 0
      rw [uploadCount_append, fetchCount_append, hz.1, hz.2, hys.1, hys.2]
      exact ⟨rfl, rfl⟩

theorem syncInv_step (u : String → List Nat → Option String) (pfx : String)
    (existing0 : List String) (st : SyncState) (p : Photo)
    (h : SyncInv existing0 st) : SyncInv existing0 (syncStep u pfx st p) := by
  obtain ⟨hbase, hupmem, hupone, hclean⟩ := h
  by_cases hmem : photoKey pfx p ∈ st.existing
  · have hstep : syncStep u pfx st p =
        { st with skipped := st.skipped + 1,
                  events := st.events ++ [SyncEvent.skip (photoKey pfx p)] } := by
      unfold syncStep
      simp [hmem]
    rw [hstep]
    have hz : ∀ k2, uploadCount k2 [SyncEvent.skip (photoKey pfx p)] = 0 ∧
        fetchCount k2 [SyncEvent.skip (photoKey pfx p)] = 0 := by
      intro k2
      constructor <;> simp [uploadCount, fetchCount, List.filter, isUploadOf, isFetchOf]
    refine ⟨?_, ?_, ?_, ?_⟩
    · intro k hk
      obtain ⟨h1, h2, h3⟩ := hbase k hk
      exact ⟨h1, by rw [uploadCount_append, h2, (hz k).1],
        by rw [fetchCount_append, h3, (hz k).2]⟩
    · intro k hk
      rw [List.mem_append] at hk
      rcases hk with hk | hk
      · exact hupmem k hk
      · simp at hk
    · intro k
      rw [uploadCount_append, (hz k).1]
      simpa using hupone k
    · intro k
      refine cleanAfterUpload_append k _ _ (hclean k) ?_ (fun _ => hz k)
      exact ⟨fun hx => (by cases hx), trivial⟩
  · have hkey_ne : ∀ k, k ∈ st.existing → photoKey pfx p ≠ k := by
      intro k hk heq
      exact hmem (heq ▸ hk)
    have hcounts_fail : ∀ (fname e : String) (k : String), photoKey pfx p ≠ k →
        uploadCount k [SyncEvent.fetch (photoKey pfx p), SyncEvent.failItem fname e] = 0 ∧
        fetchCount k [SyncEvent.fetch (photoKey pfx p), SyncEvent.failItem fname e] = 0 := by
      intro fname e k hne
      constructor <;> simp [uploadCount, fetchCount, List.filter, isUploadOf, isFetchOf, hne]
    have hcounts_ok : ∀ (k : String), photoKey pfx p ≠ k →
        uploadCount k [SyncEvent.fetch (photoKey pfx p), SyncEvent.uploadOk (photoKey pfx p)] = 0 ∧
        fetchCount k [SyncEvent.fetch (photoKey pfx p), SyncEvent.uploadOk (photoKey pfx p)] = 0 := by
      intro k hne
      constructor <;> simp [uploadCount, fetchCount, List.filter, isUploadOf, isFetchOf, hne]
    have hfail_branch : ∀ (fname e : String), SyncInv existing0
        { st with errors := st.errors ++ ["Failed " ++ fname ++ ": " ++ e],
                  events := st.events ++
                    [SyncEvent.fetch (photoKey pfx p), SyncEvent.failItem fname e] } := by
      intro fname e
      refine ⟨?_, ?_, ?_, ?_⟩
      · intro k hk
        obtain ⟨h1, h2, h3⟩ := hbase k hk
        have hne := hkey_ne k h1
        obtain ⟨hz1, hz2⟩ := hcounts_fail fname e k hne
        exact ⟨h1, by rw [uploadCount_append, h2, hz1],
          by rw [fetchCount_append, h3, hz2]⟩
      · intro k hk
        rw [List.mem_append] at hk
        rcases hk with hk | hk
        · exact hupmem k hk
        · simp at hk
      · intro k
        rw [uploadCount_append]
        by_cases hne : photoKey pfx p = k
        · have hz : uploadCount k [SyncEvent.fetch (photoKey pfx p), SyncEvent.failItem fname e] = 0 := by
            simp [uploadCount, List.filter, isUploadOf]
          rw [hz]
          simpa using hupone k
        · rw [(hcounts_fail fname e k hne).1]
          simpa using hupone k
      · intro k
        refine cleanAfterUpload_append k _ _ (hclean k) ?_ ?_
        · exact ⟨fun hx => (by cases hx), fun hx => (by cases hx), trivial⟩
        · intro hk
          exact hcounts_fail fname e k (hkey_ne k (hupmem k hk))
    cases hf : p.fetchResult with
    | error e =>
        have hstep : syncStep u pfx st p =
            { st with errors := st.errors ++ ["Failed " ++ get_photo_filename p ++ ": " ++ e],
                      events := st.events ++
                        [SyncEvent.fetch (photoKey pfx p),
                         SyncEvent.failItem (get_photo_filename p) e] } := by
          unfold syncStep
          simp [hmem, hf]
        rw [hstep]
        exact hfail_branch (get_photo_filename p) e
    | ok data =>
        cases hu : u (photoKey pfx p) data with
        | some e =>
            have hstep : syncStep u pfx st p =
                { st with errors := st.errors ++ ["Failed " ++ get_photo_filename p ++ ": " ++ e],
                          events := st.events ++
                            [SyncEvent.fetch (photoKey pfx p),
                             SyncEvent.failItem (get_photo_filename p) e] } := by
              unfold syncStep
              simp [hmem, hf, hu]
            rw [hstep]
            exact hfail_branch (get_photo_filename p) e
        | none =>
            have hstep : syncStep u pfx st p =
                { st with existing := photoKey pfx p :: st.existing,
                          imported := st.imported + 1,
                          events := st.events ++
                            [SyncEvent.fetch (photoKey pfx p),
                             SyncEvent.uploadOk (photoKey pfx p)] } := by
              unfold syncStep
              simp [hmem, hf, hu]
            rw [hstep]
            refine ⟨?_, ?_, ?_, ?_⟩
            · intro k hk
              obtain ⟨h1, h2, h3⟩ := hbase k hk
              have hne := hkey_ne k h1
              obtain ⟨hz1, hz2⟩ := hcounts_ok k hne
              exact ⟨List.mem_cons_of_mem _ h1,
                by rw [uploadCount_append, h2, hz1],
                by rw [fetchCount_append, h3, hz2]⟩
            · intro k hk
              rw [List.mem_append] at hk
              rcases hk with hk | hk
              · exact List.mem_cons_of_mem _ (hupmem k hk)
              · simp only [List.mem_cons, List.mem_singleton] at hk
                rcases hk with hk | hk | hk
                · cases hk
                · injection hk with hk2
                  subst hk2
                  show photoKey pfx p ∈ photoKey pfx p :: st.existing
                  exact List.mem_cons_self _ _
                · exact absurd hk (List.not_mem_nil _)
            · intro k
              rw [uploadCount_append]
              by_cases hne : photoKey pfx p = k
              · have hz : uploadCount k st.events = 0 := by
                  apply uploadCount_eq_zero_of_not_mem
                  intro hin
                  exact hmem (hne ▸ hupmem k hin)
                have hone : uploadCount k
                    [SyncEvent.fetch (photoKey pfx p), SyncEvent.uploadOk (photoKey pfx p)] = 1 := by
                  simp [uploadCount, List.filter, isUploadOf, isFetchOf, hne]
                rw [hz, hone]
              · rw [(hcounts_ok k hne).1]
                simpa using hupone k
            · intro k
              refine cleanAfterUpload_append k _ _ (hclean k) ?_ ?_
              · exact ⟨fun hx => (by cases hx), fun _ => ⟨rfl, rfl⟩, trivial⟩
              · intro hk
                exact hcounts_ok k (hkey_ne k (hupmem k hk))

theorem syncInv_foldl (u : String → List Nat → Option String) (pfx : String)
    (existing0 : List String) :
    ∀ (l : List Photo) (st : SyncState), SyncInv existing0 st →
      SyncInv existing0 (List.foldl (syncStep u pfx) st l) := by
  intro l
  induction l with
  | nil => intro st h; exact h
  | cons p rest ih =>
      intro st h
      exact ih (syncStep u pfx st p) (syncInv_step u pfx existing0 st p h)

theorem syncInv_init (existing0 : List String) : SyncInv existing0 (initState existing0) := by
  refine ⟨?_, ?_, ?_, ?_⟩
  · intro k hk; exact ⟨hk, rfl, rfl⟩
  · intro k hk; cases hk
  · intro k; simp [uploadCount, initState]
  · intro k; trivial

/-- Claim C4: within one run no destination key is uploaded twice — a key in
the baseline at the start is never fetched nor uploaded, a key successfully
uploaded earlier is never fetched nor uploaded again, and an item whose key is
already in the in-memory set is counted as skipped with only a skip event (no
fetch attempt). -/
theorem claim_C4 (u : String → List Nat → Option String) (pfx : String)
    (existing0 : List String) (photos : List Photo) (limit : Option Int) (k : String) :
    (k ∈ existing0 →
      uploadCount k (perform_sync u pfx existing0 photos limit).events = 0 ∧
      fetchCount k (perform_sync u pfx existing0 photos limit).events = 0) ∧
    uploadCount k (perform_sync u pfx existing0 photos limit).events ≤ 1 ∧
    cleanAfterUpload k (perform_sync u pfx existing0 photos limit).events ∧
    (∀ st p, photoKey pfx p ∈ st.existing →
      syncStep u pfx st p =
        { st with skipped := st.skipped + 1,
                  events := st.events ++ [SyncEvent.skip (photoKey pfx p)] }) := by
  have hinv : SyncInv existing0 (perform_sync u pfx existing0 photos limit) := by
    rw [perform_sync_eq_foldl]
    exact syncInv_foldl u pfx existing0 (consideredItems photos limit)
      (initState existing0) (syncInv_init existing0)
  obtain ⟨hbase, _, hupone, hclean⟩ := hinv
  refine ⟨?_, hupone k, hclean k, ?_⟩
  · intro hk
    exact (hbase k hk).2
  · intro st p hmem
    unfold syncStep
    simp [hmem]

/-- Claim C4 witness: a concrete two-item run whose second item recomputes the
first item's key; the claim theorem instantiated at the baseline key and at
the engine state reached mid-run. -/
theorem claim_C4_witness :
    ("photos/a1-p1.jpg" ∈ ["photos/a1-p1.jpg"] ∧
      uploadCount "photos/a1-p1.jpg"
        (perform_sync (fun _ _ => none) "photos/" ["photos/a1-p1.jpg"]
          [Photo.mk (some "a1") none none none (some "p1.jpg") none none none "aa"
            (Except.ok [1]),
           Photo.mk (some "a1") none none none (some "p1.jpg") none none none "bb"
            (Except.ok [2])] none).events = 0 ∧
      fetchCount "photos/a1-p1.jpg"
        (perform_sync (fun _ _ => none) "photos/" ["photos/a1-p1.jpg"]
          [Photo.mk (some "a1") none none none (some "p1.jpg") none none none "aa"
            (Except.ok [1]),
           Photo.mk (some "a1") none none none (some "p1.jpg") none none none "bb"
            (Except.ok [2])] none).events = 0) := by
  refine ⟨by decide, ?_⟩
  exact (claim_C4 (fun _ _ => none) "photos/" ["photos/a1-p1.jpg"]
    [Photo.mk (some "a1") none none none (some "p1.jpg") none none none "aa"
      (Except.ok [1]),
     Photo.mk (some "a1") none none none (some "p1.jpg") none none none "bb"
      (Except.ok [2])] none "photos/a1-p1.jpg").1 (by decide)

theorem mem_addPageKeys : ∀ (contents : List (Option String)) (acc : List String) (k : String),
    k ∈ addPageKeys acc contents ↔ k ∈ acc ∨ (k ≠ "" ∧ some k ∈ contents) := by
  intro contents
  induction contents with
  | nil => intro acc k; simp [addPageKeys]
  | cons k? rest ih =>
      intro acc k
      cases k? with
      | none =>
          have hstep : addPageKeys acc (none :: rest) = addPageKeys acc rest := rfl
          rw [hstep, ih]
          simp only [List.mem_cons]
          constructor
          · rintro (h | ⟨h1, h2⟩)
            · exact Or.inl h
            · exact Or.inr ⟨h1, Or.inr h2⟩
          · rintro (h | ⟨h1, h2 | h2⟩)
            · exact Or.inl h
            · cases h2
            · exact Or.inr ⟨h1, h2⟩
      | some k2 =>
          have hstep : addPageKeys acc (some k2 :: rest) =
              addPageKeys (if k2 = "" then acc else if k2 ∈ acc then acc else acc ++ [k2]) rest := rfl
          rw [hstep, ih]
          by_cases h2 : k2 = ""
          · subst h2
            simp only [if_pos rfl, List.mem_cons]
            constructor
            · rintro (h | ⟨h1, h3⟩)
              · exact Or.inl h
              · exact Or.inr ⟨h1, Or.inr h3⟩
            · rintro (h | ⟨h1, h3 | h3⟩)
              · exact Or.inl h
              · exact absurd (Option.some.injEq _ _ ▸ h3) (by simpa using h1)
              · exact Or.inr ⟨h1, h3⟩
          · simp only [if_neg h2]
            by_cases hin : k2 ∈ acc
            · simp only [if_pos hin, List.mem_cons]
              constructor
              · rintro (h | ⟨h1, h3⟩)
                · exact Or.inl h
                · exact Or.inr ⟨h1, Or.inr h3⟩
              · rintro (h | ⟨h1, h3 | h3⟩)
                · exact Or.inl h
                · cases h3; exact Or.inl hin
                · exact Or.inr ⟨h1, h3⟩
            · simp only [if_neg hin, List.mem_append, List.mem_cons]
              constructor
              · rintro ((h | h | h) | ⟨h1, h3⟩)
                · exact Or.inl h
                · subst h; exact Or.inr ⟨h2, Or.inl rfl⟩
                · cases h
                · exact Or.inr ⟨h1, Or.inr h3⟩
              · rintro (h | ⟨h1, h3 | h3⟩)
                · exact Or.inl (Or.inl h)
                · injection h3 with h4
                  subst h4
                  exact Or.inl (Or.inr (Or.inl rfl))
                · exact Or.inr ⟨h1, h3⟩

theorem mem_list_existing_keys :
    ∀ (pages : List ListPage) (acc : List String), wfPages pages = true →
      ∀ k, k ∈ list_existing_keys pages acc ↔
        k ∈ acc ∨ (k ≠ "" ∧ ∃ page, page ∈ pages ∧ some k ∈ page.contents) := by
  intro pages
  induction pages with
  | nil => intro acc h; cases h
  | cons page rest ih =>
      intro acc hwf k
      cases rest with
      | nil =>
          have hnt : page.isTruncated = false := by
            have : (!page.isTruncated) = true := hwf
            simpa using this
          have hstep : list_existing_keys [page] acc = addPageKeys acc page.contents := by
            show (if page.isTruncated then list_existing_keys [] (addPageKeys acc page.contents)
              else addPageKeys acc page.contents) = addPageKeys acc page.contents
            rw [hnt]
            simp
          rw [hstep, mem_addPageKeys]
          constructor
          · rintro (h | ⟨h1, h2⟩)
            · exact Or.inl h
            · exact Or.inr ⟨h1, page, List.mem_singleton.mpr rfl, h2⟩
          · rintro (h | ⟨h1, pg, hpg, h2⟩)
            · exact Or.inl h
            · rw [List.mem_singleton] at hpg
              subst hpg
              exact Or.inr ⟨h1, h2⟩
      | cons page2 rest2 =>
          have hwf2 : page.isTruncated = true ∧ wfPages (page2 :: rest2) = true := by
            have : (page.isTruncated && wfPages (page2 :: rest2)) = true := hwf
            simpa using this
          have hstep : list_existing_keys (page :: page2 :: rest2) acc =
              list_existing_keys (page2 :: rest2) (addPageKeys acc page.contents) := by
            show (if page.isTruncated then
                list_existing_keys (page2 :: rest2) (addPageKeys acc page.contents)
              else addPageKeys acc page.contents) =
              list_existing_keys (page2 :: rest2) (addPageKeys acc page.contents)
            rw [hwf2.1]
            simp
          rw [hstep, ih (addPageKeys acc page.contents) hwf2.2 k, mem_addPageKeys]
          constructor
          · rintro ((h | ⟨h1, h2⟩) | ⟨h1, pg, hpg, h2⟩)
            · exact Or.inl h
            · exact Or.inr ⟨h1, page, List.mem_cons_self _ _, h2⟩
            · exact Or.inr ⟨h1, pg, List.mem_cons_of_mem _ hpg, h2⟩
          · rintro (h | ⟨h1, pg, hpg, h2⟩)
            · exact Or.inl (Or.inl h)
            · rw [List.mem_cons] at hpg
              rcases hpg with hpg | hpg
              · subst hpg
                exact Or.inl (Or.inr ⟨h1, h2⟩)
              · exact Or.inr ⟨h1, pg, hpg, h2⟩

/-- Claim C6: for any well-formed pagination (each non-final page truncated
with a cursor to the next, final page not truncated), the lister returns
exactly the keys present on some page — so the result is independent of how
the keys are divided into pages — and a destination with zero objects yields
the empty set rather than a failure. -/
theorem claim_C6 (pages : List ListPage) (hwf : wfPages pages = true) :
    (∀ k, k ∈ listExistingKeys pages ↔
      (k ≠ "" ∧ ∃ page, page ∈ pages ∧ some k ∈ page.contents)) ∧
    ((∀ page, page ∈ pages → page.contents = []) → listExistingKeys pages = []) := by
  have hmem := mem_list_existing_keys pages [] hwf
  constructor
  · intro k
    rw [listExistingKeys, hmem k]
    simp
  · intro hempty
    have : ∀ k, k ∉ listExistingKeys pages := by
      intro k hk
      rw [listExistingKeys, hmem k] at hk
      rcases hk with hk | ⟨_, pg, hpg, h2⟩
      · cases hk
      · rw [hempty pg hpg] at h2
        cases h2
    exact List.eq_nil_iff_forall_not_mem.mpr this

/-- Claim C6 witness: a three-page pagination (two truncated pages and a
final page) enumerates keys from every page, and a single empty untruncated
page yields the empty set; both read off the claim theorem. -/
theorem claim_C6_witness :
    ("k2" ∈ listExistingKeys
      [ListPage.mk [some "k1"] true, ListPage.mk [some "k2", none] true,
       ListPage.mk [some "k3"] false]) ∧
    listExistingKeys [ListPage.mk [] false] = [] := by
  constructor
  · exact ((claim_C6
      [ListPage.mk [some "k1"] true, ListPage.mk [some "k2", none] true,
       ListPage.mk [some "k3"] false] (by decide)).1 "k2").mpr
      ⟨by decide, ListPage.mk [some "k2", none] true, by decide, by decide⟩
  · exact (claim_C6 [ListPage.mk [] false] (by decide)).2 (by decide)

theorem tableGet_set_self : ∀ (t : SessionTable) (k : String) (v : PendingSession),
    tableGet (tableSet t k v) k = some v := by
  intro t
  induction t with
  | nil => intro k v; simp [tableSet, tableGet]
  | cons kv rest ih =>
      intro k v
      obtain ⟨k2, v2⟩ := kv
      by_cases h : k2 = k
      · simp [tableSet, tableGet, h]
      · simp [tableSet, tableGet, h, ih]

theorem tableGet_set_other : ∀ (t : SessionTable) (k k2 : String) (v : PendingSession),
    k2 ≠ k → tableGet (tableSet t k v) k2 = tableGet t k2 := by
  intro t
  induction t with
  | nil =>
      intro k k2 v hne
      have : k ≠ k2 := fun h => hne h.symm
      simp [tableSet, tableGet, this]
  | cons kv rest ih =>
      intro k k2 v hne
      obtain ⟨k3, v3⟩ := kv
      by_cases h : k3 = k
      · have hstep : tableSet ((k3, v3) :: rest) k v = (k, v) :: rest := by
          simp [tableSet, h]
        have hk : ¬k = k2 := fun hx => hne hx.symm
        have h2 : ¬k3 = k2 := by rw [h]; exact hk
        rw [hstep]
        simp [tableGet, hk, h2]
      · have hstep : tableSet ((k3, v3) :: rest) k v = (k3, v3) :: tableSet rest k v := by
          simp [tableSet, h]
        rw [hstep]
        by_cases h2 : k3 = k2
        · simp [tableGet, h2]
        · simp [tableGet, h2, ih k k2 v hne]

theorem tableGet_remove_self : ∀ (t : SessionTable) (k : String),
    tableGet (tableRemove t k) k = none := by
  intro t
  induction t with
  | nil => intro k; rfl
  | cons kv rest ih =>
      intro k
      obtain ⟨k2, v2⟩ := kv
      by_cases h : k2 = k
      · simp [tableRemove, h, ih]
      · simp [tableRemove, tableGet, h, ih]

theorem tableGet_remove_other : ∀ (t : SessionTable) (k k2 : String), k2 ≠ k →
    tableGet (tableRemove t k) k2 = tableGet t k2 := by
  intro t
  induction t with
  | nil => intro k k2 _; rfl
  | cons kv rest ih =>
      intro k k2 hne
      obtain ⟨k3, v3⟩ := kv
      by_cases h : k3 = k
      · have hstep : tableRemove ((k3, v3) :: rest) k = tableRemove rest k := by
          simp [tableRemove, h]
        have h2 : ¬k3 = k2 := by rw [h]; exact fun hx => hne hx.symm
        rw [hstep, ih k k2 hne]
        simp [tableGet, h2]
      · have hstep : tableRemove ((k3, v3) :: rest) k = (k3, v3) :: tableRemove rest k := by
          simp [tableRemove, h]
        rw [hstep]
        by_cases h2 : k3 = k2
        · simp [tableGet, h2]
        · simp [tableGet, h2, ih k k2 hne]

/-- Claim C9: ResumeLogin with a session_id absent from the pending table is
rejected with the not-found error and mutates nothing: the table is returned
unchanged, no remote login is constructed, and no sync runs. -/
theorem claim_C9 (login : String → String → String → ApiHandle)
    (u : String → List Nat → Option String) (pfx : String) (pages : List ListPage)
    (extract : String → Option SessionPayload)
    (table : SessionTable) (payload : TwoFactorRequest)
    (habs : tableGet table payload.session_id = none) :
    sync_with_2fa login u pfx pages extract table payload =
      ⟨Except.error ⟨404, "Session not found"⟩, table, [], 0⟩ := by
  unfold sync_with_2fa
  rw [habs]

/-- Claim C9 witness: the claim theorem applied to an empty table and an
unknown session_id. -/
theorem claim_C9_witness :
    tableGet [] "nope" = none ∧
    sync_with_2fa (fun _ _ _ => ApiHandle.mk false false (fun _ => false) [])
        (fun _ _ => none) "p/" [] (fun _ => none) [] (TwoFactorRequest.mk "nope" "1") =
      ⟨Except.error ⟨404, "Session not found"⟩, [], [], 0⟩ :=
  ⟨rfl, claim_C9 (fun _ _ _ => ApiHandle.mk false false (fun _ => false) [])
    (fun _ _ => none) "p/" [] (fun _ => none) [] (TwoFactorRequest.mk "nope" "1") rfl⟩

/-- Claim C8: a BeginLogin whose login signals a pending challenge performs
no sync, stores the pending session (account identifier, credential, cache
directory) under the freshly generated id, leaves every other table entry
unchanged, and answers needs_2fa with that id. -/
theorem claim_C8 (login : String → String → String → ApiHandle)
    (u : String → List Nat → Option String) (pfx : String) (pages : List ListPage)
    (extract : String → Option SessionPayload) (newDir newId : String) (now : Nat)
    (table : SessionTable) (req : SyncRequest) (files : List (String × String))
    (hdir : create_session_dir req.session = Except.ok files)
    (hflag : ((login req.apple_id req.app_password newDir).requires_2fa ||
      (login req.apple_id req.app_password newDir).requires_2sa) = true)
    (_hfresh : tableGet table newId = none) :
    (sync_photos login u pfx pages extract newDir newId now table req).response =
      Except.ok (SyncResponse.needs2fa newId) ∧
    (sync_photos login u pfx pages extract newDir newId now table req).syncLimits = [] ∧
    tableGet (sync_photos login u pfx pages extract newDir newId now table req).table newId =
      some (PendingSession.mk req.apple_id req.app_password newDir now) ∧
    (∀ k2, k2 ≠ newId →
      tableGet (sync_photos login u pfx pages extract newDir newId now table req).table k2 =
        tableGet table k2) := by
  have hr : sync_photos login u pfx pages extract newDir newId now table req =
      ⟨Except.ok (SyncResponse.needs2fa newId),
       tableSet table newId ⟨req.apple_id, req.app_password, newDir, now⟩, [], 1⟩ := by
    unfold sync_photos
    rw [hdir]
    simp [hflag]
  rw [hr]
  refine ⟨rfl, rfl, tableGet_set_self table newId _, ?_⟩
  intro k2 hne
  exact tableGet_set_other table newId k2 _ hne

/-- Claim C8 witness: the claim theorem applied to a concrete challenged
login against an empty table. -/
theorem claim_C8_witness :
    tableGet [] "fresh" = none ∧
    (sync_photos (fun _ _ _ => ApiHandle.mk true false (fun _ => true) [])
        (fun _ _ => none) "p/" [] (fun _ => none) "dir" "fresh" 7 []
        (SyncRequest.mk "a" "pw" none none)).response =
      Except.ok (SyncResponse.needs2fa "fresh") ∧
    tableGet (sync_photos (fun _ _ _ => ApiHandle.mk true false (fun _ => true) [])
        (fun _ _ => none) "p/" [] (fun _ => none) "dir" "fresh" 7 []
        (SyncRequest.mk "a" "pw" none none)).table "fresh" =
      some (PendingSession.mk "a" "pw" "dir" 7) := by
  refine ⟨rfl, ?_, ?_⟩
  · exact (claim_C8 (fun _ _ _ => ApiHandle.mk true false (fun _ => true) [])
      (fun _ _ => none) "p/" [] (fun _ => none) "dir" "fresh" 7 []
      (SyncRequest.mk "a" "pw" none none) [] rfl rfl rfl).1
  · exact (claim_C8 (fun _ _ _ => ApiHandle.mk true false (fun _ => true) [])
      (fun _ _ => none) "p/" [] (fun _ => none) "dir" "fresh" 7 []
      (SyncRequest.mk "a" "pw" none none) [] rfl rfl rfl).2.2.1

/-- Claim C1, as stated: whenever any verification challenge is still pending
on the re-invoked login, the supplied code is validated, an invalid code
being an authorization error that leaves the entry in place.  Refuted: the
resume handler checks only the requires_2fa flag, so a login whose pending
challenge is the two-step (requires_2sa) variant skips validation entirely —
with an invalid code the call still answers ok, runs a sync and removes the
entry. -/
theorem claim_C1_counterexample :
    c1ResumeApi.requires_2sa = true ∧
    c1ResumeApi.requires_2fa = false ∧
    c1ResumeApi.validate_2fa_code "000000" = false ∧
    c1Resume.response = Except.ok (SyncResponse.ok 0 0 [] none) ∧
    tableGet c1Resume.table "s" = none ∧
    c1Resume.syncLimits = [none] :=
  ⟨rfl, rfl, rfl, rfl, rfl, rfl⟩

/-- Claim C1, amended: on ResumeLogin with a known session_id, the code is
validated exactly when the 2FA flag is still set on the re-invoked login (a
pending 2SA-only challenge is not re-validated; the call proceeds straight to
sync).  An invalid 2FA code yields the 401 authorization error with the table
untouched and no sync; otherwise exactly one sync runs with no item limit,
the response carries its outcome and the extracted payload, and the entry —
and only that entry — is removed. -/
theorem claim_C1_amended (login : String → String → String → ApiHandle)
    (u : String → List Nat → Option String) (pfx : String) (pages : List ListPage)
    (extract : String → Option SessionPayload)
    (table : SessionTable) (payload : TwoFactorRequest) (pending : PendingSession)
    (hget : tableGet table payload.session_id = some pending) :
    ((login pending.apple_id pending.app_password pending.session_dir).requires_2fa = true →
     (login pending.apple_id pending.app_password pending.session_dir).validate_2fa_code
        payload.code = false →
      sync_with_2fa login u pfx pages extract table payload =
        ⟨Except.error ⟨401, "Invalid 2FA code"⟩, table, [], 1⟩) ∧
    (((login pending.apple_id pending.app_password pending.session_dir).requires_2fa = false ∨
      (login pending.apple_id pending.app_password pending.session_dir).validate_2fa_code
        payload.code = true) →
      (sync_with_2fa login u pfx pages extract table payload).response =
        Except.ok (SyncResponse.ok
          (perform_sync u pfx (listExistingKeys pages)
            (login pending.apple_id pending.app_password pending.session_dir).photos
            none).imported
          (perform_sync u pfx (listExistingKeys pages)
            (login pending.apple_id pending.app_password pending.session_dir).photos
            none).skipped
          (perform_sync u pfx (listExistingKeys pages)
            (login pending.apple_id pending.app_password pending.session_dir).photos
            none).errors
          (extract pending.session_dir)) ∧
      (sync_with_2fa login u pfx pages extract table payload).syncLimits = [none] ∧
      tableGet (sync_with_2fa login u pfx pages extract table payload).table
        payload.session_id = none ∧
      (∀ k2, k2 ≠ payload.session_id →
        tableGet (sync_with_2fa login u pfx pages extract table payload).table k2 =
          tableGet table k2)) := by
  constructor
  · intro h2fa hbad
    unfold sync_with_2fa
    rw [hget]
    simp [h2fa, hbad]
  · intro hok
    have hcond : ((login pending.apple_id pending.app_password pending.session_dir).requires_2fa &&
        !(login pending.apple_id pending.app_password pending.session_dir).validate_2fa_code
          payload.code) = false := by
      rcases hok with h | h <;> simp [h]
    have hr : sync_with_2fa login u pfx pages extract table payload =
        ⟨Except.ok (SyncResponse.ok
            (perform_sync u pfx (listExistingKeys pages)
              (login pending.apple_id pending.app_password pending.session_dir).photos
              none).imported
            (perform_sync u pfx (listExistingKeys pages)
              (login pending.apple_id pending.app_password pending.session_dir).photos
              none).skipped
            (perform_sync u pfx (listExistingKeys pages)
              (login pending.apple_id pending.app_password pending.session_dir).photos
              none).errors
            (extract pending.session_dir)),
         tableRemove table payload.session_id, [none], 1⟩ := by
      unfold sync_with_2fa
      rw [hget]
      simp [hcond]
    rw [hr]
    refine ⟨rfl, rfl, tableGet_remove_self table payload.session_id, ?_⟩
    intro k2 hne
    exact tableGet_remove_other table payload.session_id k2 hne

/-- Claim C1 witness: the amended theorem applied to a parked session whose
re-invoked login still requires 2FA — a wrong code gives the 401 error with
the entry kept, read off the theorem's first part. -/
theorem claim_C1_witness :
    tableGet [("s", PendingSession.mk "a" "pw" "d" 0)] "s" =
      some (PendingSession.mk "a" "pw" "d" 0) ∧
    sync_with_2fa (fun _ _ _ => ApiHandle.mk true false (fun c => decide (c = "123456")) [])
        (fun _ _ => none) "p/" [] (fun _ => none)
        [("s", PendingSession.mk "a" "pw" "d" 0)] (TwoFactorRequest.mk "s" "999999") =
      ⟨Except.error ⟨401, "Invalid 2FA code"⟩,
       [("s", PendingSession.mk "a" "pw" "d" 0)], [], 1⟩ :=
  ⟨rfl,
   (claim_C1_amended (fun _ _ _ => ApiHandle.mk true false (fun c => decide (c = "123456")) [])
     (fun _ _ => none) "p/" [] (fun _ => none)
     [("s", PendingSession.mk "a" "pw" "d" 0)] (TwoFactorRequest.mk "s" "999999")
     (PendingSession.mk "a" "pw" "d" 0) rfl).1 rfl rfl⟩

theorem slash_notin_foldl : ∀ (l : List Char) (acc : List Char), '/' ∉ acc →
    '/' ∉ l.foldl afterLastSlashStep acc := by
  intro l
  induction l with
  | nil => intro acc h; exact h
  | cons c cs ih =>
      intro acc h
      simp only [List.foldl]
      apply ih
      unfold afterLastSlashStep
      by_cases hc : c = '/'
      · simp [hc]
      · simp only [if_neg hc]
        intro hmem
        rcases List.mem_append.mp hmem with h2 | h2
        · exact h h2
        · rw [List.mem_singleton] at h2
          exact hc h2.symm

theorem slash_notin_posixBasename (p : String) : '/' ∉ (posixBasename p).data :=
  slash_notin_foldl p.data [] (by simp)

/-- Claim C10, as stated: every supplied cache payload makes BeginLogin write
exactly one file into the session directory.  Refuted: a payload whose
file_name is ".." has basename "..", and the open of session_dir/.. (the
parent directory, which exists) raises instead of writing, so no file at all
is written and the request fails. -/
theorem claim_C10_counterexample :
    create_session_dir (some (SessionPayload.mk ".." "x")) =
      Except.error "IsADirectoryError: .." ∧
    (∀ files, create_session_dir (some (SessionPayload.mk ".." "x")) ≠
      Except.ok files) := by
  refine ⟨by rfl, ?_⟩
  intro files h
  exact Except.noConfusion ((by rfl :
    create_session_dir (some (SessionPayload.mk ".." "x")) =
      Except.error "IsADirectoryError: ..").symm.trans h)

/-- Claim C10, amended: the only file name ever written is the basename of the
payload's file_name, which contains no path separator; when that basename is a
regular component (non-empty and not a dot entry) exactly one file is written
directly inside the session directory, and for the remaining (pathological)
basenames the open call fails and nothing is written — so no payload ever
causes a write outside the session directory. -/
theorem claim_C10_amended (s : SessionPayload) :
    ('/' ∉ (posixBasename s.file_name).data) ∧
    (invalidWriteName (posixBasename s.file_name) = false →
      create_session_dir (some s) = Except.ok [(posixBasename s.file_name, s.data)]) ∧
    (invalidWriteName (posixBasename s.file_name) = true →
      create_session_dir (some s) =
        Except.error ("IsADirectoryError: " ++ posixBasename s.file_name)) ∧
    (∀ files fname fdata, create_session_dir (some s) = Except.ok files →
      (fname, fdata) ∈ files →
        fname = posixBasename s.file_name ∧ '/' ∉ fname.data ∧
        fname ≠ "" ∧ fname ≠ "." ∧ fname ≠ "..") ∧
    create_session_dir none = Except.ok [] := by
  refine ⟨slash_notin_posixBasename s.file_name, ?_, ?_, ?_, rfl⟩
  · intro hval
    unfold create_session_dir
    simp [hval]
  · intro hval
    unfold create_session_dir
    simp [hval]
  · intro files fname fdata hok hmem
    by_cases hval : invalidWriteName (posixBasename s.file_name) = true
    · exfalso
      unfold create_session_dir at hok
      simp [hval] at hok
    · have hval2 : invalidWriteName (posixBasename s.file_name) = false :=
        Bool.eq_false_iff.mpr hval
      unfold create_session_dir at hok
      simp [hval2] at hok
      subst hok
      rw [List.mem_singleton] at hmem
      have hf : fname = posixBasename s.file_name := congrArg Prod.fst hmem
      have hinval : ¬(posixBasename s.file_name = "" ∨
          posixBasename s.file_name = "." ∨ posixBasename s.file_name = "..") := by
        intro hx
        apply hval
        unfold invalidWriteName
        rcases hx with hx | hx | hx <;> simp [hx]
      push_neg at hinval
      refine ⟨hf, hf ▸ slash_notin_posixBasename s.file_name, ?_, ?_, ?_⟩
      · rw [hf]; exact hinval.1
      · rw [hf]; exact hinval.2.1
      · rw [hf]; exact hinval.2.2

/-- Claim C10 witness: the amended theorem applied to a payload whose
file_name carries a directory part — only the basename is written. -/
theorem claim_C10_witness :
    invalidWriteName (posixBasename "a/b.txt") = false ∧
    create_session_dir (some (SessionPayload.mk "a/b.txt" "d")) =
      Except.ok [(posixBasename "a/b.txt", "d")] :=
  ⟨by decide, (claim_C10_amended (SessionPayload.mk "a/b.txt" "d")).2.1 (by decide)⟩

end ICloudWorker

